import Mathlib

/-!
# Verification of the writerator text-analysis CLI

Shallow embedding of `writerator.py` (the CLI layer present in the repository)
together with models of the `texttools` engine operations it calls
(`Text.rank_by_total_count`, `Text.count_occurences`,
`Text.rank_by_number_of_matches`, `Text.calculate_Gunning_Fog_Index`,
`Text.generate_poems`), which are not part of the repository source and are
therefore modelled from the specification where a claim depends on them.

Python strings are modelled as `List Char` where character-level splitting
matters (`str.split`), and as `String` elsewhere. Python `int` arguments that
can be negative (`args.show`, shortcut entries) are modelled as `Int`.
-/

namespace Writerator

/-! ## Python string splitting

`pySplit sep l` models Python's `str.split(sep)` for a one-character
separator: the text is cut at every occurrence of `sep`, empty pieces are
kept, and splitting the empty string yields `[[]]`. -/

def pySplit (sep : Char) : List Char → List (List Char)
  | [] => [[]]
  | c :: rest =>
    if c = sep then [] :: pySplit sep rest
    else (c :: (pySplit sep rest).headI) :: (pySplit sep rest).tail

theorem pySplit_ne_nil (sep : Char) (l : List Char) : pySplit sep l ≠ [] := by
  cases l with
  | nil => simp [pySplit]
  | cons c rest => simp only [pySplit]; split <;> simp

theorem length_pySplit (sep : Char) (l : List Char) :
    (pySplit sep l).length = l.count sep + 1 := by
  induction l with
  | nil => simp [pySplit]
  | cons c rest ih =>
    simp only [pySplit]
    by_cases hc : c = sep
    · rw [if_pos hc, hc]
      simp only [List.length_cons, List.count_cons_self]
      omega
    · rw [if_neg hc, List.count_cons_of_ne (Ne.symm hc)]
      have hpos : 0 < (pySplit sep rest).length :=
        List.length_pos.mpr (pySplit_ne_nil sep rest)
      simp only [List.length_cons, List.length_tail]
      omega

theorem pySplit_of_not_mem (sep : Char) (l : List Char) (h : sep ∉ l) :
    pySplit sep l = [l] := by
  induction l with
  | nil => rfl
  | cons c rest ih =>
    simp only [List.mem_cons, not_or] at h
    simp only [pySplit, ih h.2]
    rw [if_neg (Ne.symm h.1)]
    simp

theorem pySplit_append_sep (sep : Char) (pre post : List Char)
    (hpre : sep ∉ pre) (hpost : sep ∉ post) :
    pySplit sep (pre ++ sep :: post) = [pre, post] := by
  induction pre with
  | nil =>
    rw [List.nil_append]
    simp only [pySplit, pySplit_of_not_mem sep post hpost]
    simp
  | cons c rest ih =>
    simp only [List.mem_cons, not_or] at hpre
    simp only [List.cons_append, pySplit]
    rw [if_neg (Ne.symm hpre.1), List.append_eq, ih hpre.2]
    simp

/-! ## `get_filenames` (writerator.py lines 176–181)

`(name, extension) = filename_in.split(".")` destructures the split into
exactly two parts; with any number of dots other than one, the Python
unpacking raises a `ValueError`. The error path is modelled as `none`. -/

def get_filenames (filename_in : List Char) : Option (List Char × List Char) :=
  match pySplit '.' filename_in with
  | [name, extension] =>
    some (filename_in, name ++ "_out".toList ++ ".".toList ++ extension)
  | _ => none

/-! ## `expand_type` (writerator.py lines 184–195)

The invalid-code branch logs an error and calls `sys.exit(0)`, terminating
the process; that path is the `exitProcess` constructor. -/

inductive ExpandResult where
  | ok (s : String)
  | exitProcess
  deriving DecidableEq, Repr

def expand_type (code : String) : ExpandResult :=
  if code = "c" then .ok "characters"
  else if code = "w" then .ok "words"
  else if code = "s" then .ok "sentences"
  else .exitProcess

/-! ## Syllable patterns (writerator.py lines 197–240)

`get_repeat_syllable_pattern` appends `number_of_syllables` once per
iteration of `range(0, times_to_repeat)`; a negative repeat count gives an
empty range, hence `Int.toNat`. `get_syllable_pattern` handles the two
presets and implicitly returns `None` for any other name. -/

def get_repeat_syllable_pattern (number_of_syllables times_to_repeat : Int) :
    List Int :=
  List.replicate times_to_repeat.toNat number_of_syllables

def get_syllable_pattern (name : String) : Option (List Int) :=
  if name = "s" then some (get_repeat_syllable_pattern 10 14)
  else if name = "h" then some [7, 5, 7]
  else none

/-- The mutually exclusive `poem` argument group (writerator.py lines
98–111): `--syllables` is a list of ints, `--preset` one of the preset
names, `--shortcut` a pair of ints; each is absent (`none`) unless given. -/
structure PoemArgs where
  syllables : Option (List Int)
  preset : Option String
  shortcut : Option (Int × Int)

/-- Python truthiness of an optional list: `None` and `[]` are falsy. -/
def truthyList (o : Option (List Int)) : Bool :=
  match o with
  | none => false
  | some l => !l.isEmpty

/-- Python truthiness of an optional string: `None` and `""` are falsy. -/
def truthyStr (o : Option String) : Bool :=
  match o with
  | none => false
  | some s => !s.isEmpty

/-- Python truthiness of the two-element shortcut list: truthy whenever
present (a two-element list is never empty). -/
def truthyShortcut (o : Option (Int × Int)) : Bool :=
  o.isSome

/-- The `poem` branch of `get_output` (writerator.py lines 229–240):
resolves the syllable pattern handed to `get_poem_output`. The fall-through
where none of the three options is truthy (Python raises
`UnboundLocalError`) and a preset lookup yielding `None` are both modelled
as `none`. -/
def resolve_poem_pattern (args : PoemArgs) : Option (List Int) :=
  if truthyList args.syllables then args.syllables
  else if truthyStr args.preset then
    match args.preset with
    | some p => get_syllable_pattern p
    | none => none
  else if truthyShortcut args.shortcut then
    match args.shortcut with
    | some (s, k) => some (get_repeat_syllable_pattern s k)
    | none => none
  else none

/-! ## Ranked-list formatting (writerator.py lines 312–329) -/

def get_last_index_for_output (ranked_elements : List (α × Nat))
    (number_to_display : Int) : Int :=
  if (ranked_elements.length : Int) < number_to_display then
    (ranked_elements.length : Int)
  else number_to_display

/-- `generate_ranked_list_output`: the loop over `range(0, last_index)`
formats `str(count) + ": " + str(element) + "\n"` for each entry whose
count is nonzero. A negative `last_index` gives an empty range, hence
`Int.toNat`. -/
def generate_ranked_list_output [ToString α] (rank_list : List (α × Nat))
    (number_to_show : Int) : List String :=
  let last_index := get_last_index_for_output rank_list number_to_show
  ((rank_list.take last_index.toNat).filter (fun e => decide (e.2 ≠ 0))).map
    (fun e => toString e.2 ++ ": " ++ toString e.1 ++ "\n")

/-! ## Frequency ranking

Modelled from the spec: `texttools.Text.rank_by_total_count` and
`texttools.Text.rank_by_number_of_matches` are not under src/ (the
`texttools` module is not part of the repository source). The spec's
ordering invariant: counts of every distinct element, sorted by count
descending, ties broken by first-appearance order in the source text (a
stable sort over the original tokenization order). The stable descending
sort is realised by insertion sort. -/

/-- Distinct values of a token list, in first-appearance order. -/
def distinctInOrder [DecidableEq α] : List α → List α
  | [] => []
  | x :: xs => x :: distinctInOrder (xs.filter (fun y => decide (y ≠ x)))
termination_by l => l.length
decreasing_by
  simp only [List.length_cons]
  exact Nat.lt_succ_of_le (List.length_filter_le _ _)

/-- Insert an entry into a count-descending list, before the first entry of
equal or smaller count (so an entry inserted earlier keeps priority over
later ties: stability). -/
def insertDesc (x : α × Nat) : List (α × Nat) → List (α × Nat)
  | [] => [x]
  | y :: ys => if y.2 ≤ x.2 then x :: y :: ys else y :: insertDesc x ys

/-- Stable insertion sort by count descending. -/
def sortDescStable : List (α × Nat) → List (α × Nat)
  | [] => []
  | x :: xs => insertDesc x (sortDescStable xs)

/-- Modelled from the spec: `texttools.Text.rank_by_total_count` — count
occurrences of every distinct element of the tokenized view, sorted by
count descending, ties in first-appearance order. -/
def rank_by_total_count [DecidableEq α] (tokens : List α) : List (α × Nat) :=
  sortDescStable ((distinctInOrder tokens).map (fun v => (v, tokens.count v)))

/-- Number of positions of `l` at which `pat` occurs as a contiguous
substring. -/
def countSubstrOcc (pat l : List Char) : Nat :=
  ((List.range (l.length + 1)).filter (fun i => pat.isPrefixOf (l.drop i))).length

/-- Modelled from the spec: `texttools.Text.rank_by_number_of_matches` —
per element value, the total number of pattern matches summed over all
patterns and over all occurrences of the value, ranked with the same
ordering rule as total-count ranking. -/
def rank_by_number_of_matches (patterns : List (List Char))
    (tokens : List (List Char)) : List (List Char × Nat) :=
  sortDescStable ((distinctInOrder tokens).map
    (fun v => (v, tokens.count v * (patterns.map (fun p => countSubstrOcc p v)).sum)))

/-! ## Engine outputs used by `get_output` (writerator.py lines 285–344) -/

/-- A Python value appended to the output-lines list. `writerator.py`
appends strings in the ranked and poem paths, but the raw integer returned
by `count_occurences` in the count path and the raw float returned by
`calculate_Gunning_Fog_Index` in the readability path. -/
inductive OutputLine where
  | str (s : String)
  | int (n : Nat)
  | float (q : ℚ)
  deriving DecidableEq, Repr

/-- Modelled from the spec: `texttools.Text.count_occurences` — exact-
equality count of the tokens of the requested type equal to the value. -/
def count_occurences (element_to_count : String) (tokens : List String) : Nat :=
  tokens.count element_to_count

/-- `get_count_output` (writerator.py lines 294–298): appends the integer
returned by `count_occurences` to the output list, without converting it
to a string. -/
def get_count_output (tokens : List String) (element_to_count : String) :
    List OutputLine :=
  [.int (count_occurences element_to_count tokens)]

/-- `get_totalcount_output` (writerator.py lines 289–292). -/
def get_totalcount_output [DecidableEq α] [ToString α] (tokens : List α)
    (number_to_display : Int) : List String :=
  generate_ranked_list_output (rank_by_total_count tokens) number_to_display

/-- `get_match_output` (writerator.py lines 300–310): splits the patterns
argument on `~` when the separator occurs in it (Python `in` on a
one-character string is containment of that character), wraps it in a
one-element list otherwise, and hands the list to the ranker. -/
def get_match_output (tokens : List (List Char)) (elements_to_match : List Char)
    (number_to_display : Int) : List String :=
  let ems :=
    if '~' ∈ elements_to_match then pySplit '~' elements_to_match
    else [elements_to_match]
  generate_ranked_list_output (rank_by_number_of_matches ems tokens)
    number_to_display

/-- Modelled from the spec: `texttools.Text.calculate_Gunning_Fog_Index`
is not under src/. The spec gives `0.4 * ((words/sentences) + 100 *
(complexWords/words))` with a division guard: the score is a typed failure
(modelled `none`) when the sentence count or the word count is zero. -/
def calculate_Gunning_Fog_Index (words sentences complexWords : Nat) :
    Option ℚ :=
  if sentences = 0 ∨ words = 0 then none
  else some ((2 / 5 : ℚ) * ((words : ℚ) / sentences + 100 * ((complexWords : ℚ) / words)))

/-- `get_Gunning_output` (writerator.py lines 331–332): wraps the float
score in a singleton output list, without converting it to a string. -/
def get_Gunning_output (words sentences complexWords : Nat) :
    Option (List OutputLine) :=
  (calculate_Gunning_Fog_Index words sentences complexWords).map
    (fun q => [.float q])

/-! ## Poem generation

Modelled from the spec: `texttools.Text.generate_poems` is not under
src/. A source vocabulary is a list of word fragments, each carried with
its estimated syllable count (the syllable estimator guarantees a count
≥ 1 for every word). A poem line is the list of chosen fragments; per
line, the generator searches for a combination of fragments whose
cumulative syllable count equals the target exactly, failing
(`UnsatisfiablePatternError`, modelled `none`) when no combination can
reach it. Candidate fragments are tried in vocabulary order, a
deterministic stand-in for the spec's randomized uniform choice. -/

/-- A vocabulary entry: a word fragment with its estimated syllable count. -/
abbrev VocabWord := String × Nat

/-- Cumulative estimated syllable count of a line. -/
def lineSyllables (line : List VocabWord) : Nat :=
  (line.map Prod.snd).sum

/-- `none`-propagating elementwise map, used for per-line generation. -/
def mapOpt (f : α → Option β) : List α → Option (List β)
  | [] => some []
  | a :: as =>
    match f a, mapOpt f as with
    | some b, some bs => some (b :: bs)
    | _, _ => none

/-- Depth-first search for a combination of vocabulary fragments whose
syllable counts sum exactly to the target. -/
def findCombo (vocab : List VocabWord) : Nat → Option (List VocabWord)
  | 0 => some []
  | t + 1 =>
    (vocab.filter (fun w => decide (0 < w.2) && decide (w.2 ≤ t + 1))).attach.foldr
      (fun w acc => ((findCombo vocab (t + 1 - w.1.2)).map (w.1 :: ·)) <|> acc)
      none
termination_by t => t
decreasing_by
  have hw := List.of_mem_filter w.2
  simp only [Bool.and_eq_true, decide_eq_true_eq] at hw
  omega

/-- Modelled from the spec: `texttools.Text.generate_poems` — one line per
pattern entry, the per-line process repeated `number_to_generate` times to
produce that many poems (with the deterministic line search the generated
poems coincide); an unsatisfiable line fails the whole generation. -/
def generate_poems (vocab : List VocabWord) (syllables_pattern : List Nat)
    (number_to_generate : Nat) : Option (List (List (List VocabWord))) :=
  (mapOpt (findCombo vocab) syllables_pattern).map
    (fun poem => List.replicate number_to_generate poem)

/-- A generated line rendered as text: the chosen fragments joined by
spaces. -/
def renderLine (line : List VocabWord) : String :=
  " ".intercalate (line.map Prod.fst)

/-- `get_poem_output` (writerator.py lines 334–344): per poem, one output
string per line (the line followed by a newline), then one blank separator
line. -/
def get_poem_output (vocab : List VocabWord) (syllables_pattern : List Nat)
    (number_to_generate : Nat) : Option (List String) :=
  (generate_poems vocab syllables_pattern number_to_generate).map
    (fun poems => poems.flatMap
      (fun poem => poem.map (fun line => renderLine line ++ "\n") ++ ["\n"]))

/-- A syllable target is satisfiable by the vocabulary when some list of
vocabulary fragments has exactly that cumulative syllable count. -/
def Satisfiable (vocab : List VocabWord) (target : Nat) : Prop :=
  ∃ ws : List VocabWord, (∀ w ∈ ws, w ∈ vocab) ∧ lineSyllables ws = target

/-! ## Lemmas about the stable descending insertion sort -/

theorem mem_insertDesc {x z : α × Nat} {l : List (α × Nat)}
    (h : z ∈ insertDesc x l) : z = x ∨ z ∈ l := by
  induction l with
  | nil => simpa [insertDesc] using h
  | cons y ys ih =>
    simp only [insertDesc] at h
    split at h
    · exact List.mem_cons.mp h
    · rcases List.mem_cons.mp h with h' | h'
      · exact Or.inr (List.mem_cons.mpr (Or.inl h'))
      · rcases ih h' with h'' | h''
        · exact Or.inl h''
        · exact Or.inr (List.mem_cons.mpr (Or.inr h''))

theorem insertDesc_pairwise {x : α × Nat} {l : List (α × Nat)}
    (h : l.Pairwise (fun a b => b.2 ≤ a.2)) :
    (insertDesc x l).Pairwise (fun a b => b.2 ≤ a.2) := by
  induction l with
  | nil => simp [insertDesc]
  | cons y ys ih =>
    rw [List.pairwise_cons] at h
    simp only [insertDesc]
    split
    · rename_i hle
      rw [List.pairwise_cons]
      refine ⟨?_, List.pairwise_cons.mpr h⟩
      intro z hz
      rcases List.mem_cons.mp hz with h' | h'
      · exact h' ▸ hle
      · exact le_trans (h.1 z h') hle
    · rename_i hgt
      push_neg at hgt
      rw [List.pairwise_cons]
      refine ⟨?_, ih h.2⟩
      intro z hz
      rcases mem_insertDesc hz with h' | h'
      · exact h' ▸ le_of_lt hgt
      · exact h.1 z h'

theorem sortDescStable_pairwise (l : List (α × Nat)) :
    (sortDescStable l).Pairwise (fun a b => b.2 ≤ a.2) := by
  induction l with
  | nil => simp [sortDescStable]
  | cons x xs ih => exact insertDesc_pairwise ih

theorem filter_insertDesc (x : α × Nat) (l : List (α × Nat)) (c : Nat) :
    (insertDesc x l).filter (fun e => decide (e.2 = c)) =
      (x :: l).filter (fun e => decide (e.2 = c)) := by
  induction l with
  | nil => rfl
  | cons y ys ih =>
    simp only [insertDesc]
    split
    · rfl
    · rename_i hgt
      push_neg at hgt
      by_cases hy : y.2 = c
      · by_cases hx : x.2 = c
        · omega
        · simp [List.filter_cons, hy, hx, ih]
      · simp [List.filter_cons, hy, ih]

theorem filter_sortDescStable (l : List (α × Nat)) (c : Nat) :
    (sortDescStable l).filter (fun e => decide (e.2 = c)) =
      l.filter (fun e => decide (e.2 = c)) := by
  induction l with
  | nil => rfl
  | cons x xs ih =>
    simp only [sortDescStable]
    rw [filter_insertDesc]
    by_cases hx : x.2 = c
    · simp [List.filter_cons, hx, ih]
    · simp [List.filter_cons, hx, ih]

/-! ## Lemmas about the line search and poem generation -/

theorem foldr_orelse_eq_some {f : α → Option β} {l : List α} {b : β}
    (h : l.foldr (fun a acc => f a <|> acc) none = some b) :
    ∃ a ∈ l, f a = some b := by
  induction l with
  | nil => simp at h
  | cons a as ih =>
    simp only [List.foldr_cons] at h
    cases hfa : f a with
    | none =>
      rw [hfa] at h
      simp only [Option.none_orElse] at h
      obtain ⟨a', ha', hfa'⟩ := ih h
      exact ⟨a', List.mem_cons.mpr (Or.inr ha'), hfa'⟩
    | some b' =>
      rw [hfa] at h
      simp only [Option.some_orElse] at h
      exact ⟨a, List.mem_cons_self a as, hfa ▸ h⟩

theorem foldr_orelse_isSome {f : α → Option β} {l : List α} {a : α}
    (ha : a ∈ l) (h : (f a).isSome) :
    (l.foldr (fun a acc => f a <|> acc) none).isSome := by
  induction l with
  | nil => simp at ha
  | cons x xs ih =>
    simp only [List.foldr_cons]
    rcases List.mem_cons.mp ha with h' | h'
    · subst h'
      obtain ⟨b, hb⟩ := Option.isSome_iff_exists.mp h
      simp [hb]
    · cases hfx : f x with
      | none => simpa [Option.none_orElse] using ih h'
      | some b => simp [hfx]

theorem findCombo_sound (vocab : List VocabWord) :
    ∀ t l, findCombo vocab t = some l →
      lineSyllables l = t ∧ ∀ w ∈ l, w ∈ vocab := by
  intro t
  induction t using Nat.strong_induction_on with
  | _ t ih =>
    intro l h
    match t with
    | 0 =>
      rw [findCombo] at h
      cases h
      exact ⟨rfl, by simp⟩
    | t' + 1 =>
      rw [findCombo] at h
      obtain ⟨w, _, hw⟩ := foldr_orelse_eq_some h
      have hwf := List.of_mem_filter w.2
      simp only [Bool.and_eq_true, decide_eq_true_eq] at hwf
      have hwv : w.1 ∈ vocab := List.mem_of_mem_filter w.2
      obtain ⟨l', hl', heq⟩ := Option.map_eq_some'.mp hw
      subst heq
      obtain ⟨hsum, hmem⟩ := ih (t' + 1 - w.1.2) (by omega) l' hl'
      constructor
      · simp only [lineSyllables, List.map_cons, List.sum_cons]
        simp only [lineSyllables] at hsum
        omega
      · intro z hz
        rcases List.mem_cons.mp hz with h' | h'
        · exact h' ▸ hwv
        · exact hmem z h'

theorem findCombo_complete (vocab : List VocabWord)
    (hv : ∀ w ∈ vocab, 0 < w.2) :
    ∀ t, Satisfiable vocab t → (findCombo vocab t).isSome := by
  intro t
  induction t using Nat.strong_induction_on with
  | _ t ih =>
    rintro ⟨ws, hws, hsum⟩
    match t with
    | 0 => rw [findCombo]; rfl
    | t' + 1 =>
      match ws with
      | [] => simp [lineSyllables] at hsum
      | w :: rest =>
        have hwv : w ∈ vocab := hws w (List.mem_cons_self w rest)
        have hwpos : 0 < w.2 := hv w hwv
        simp only [lineSyllables, List.map_cons, List.sum_cons] at hsum
        have hwle : w.2 ≤ t' + 1 := by omega
        have hrest : Satisfiable vocab (t' + 1 - w.2) :=
          ⟨rest, fun z hz => hws z (List.mem_cons.mpr (Or.inr hz)),
            by simp only [lineSyllables]; omega⟩
        have hinner : (findCombo vocab (t' + 1 - w.2)).isSome :=
          ih (t' + 1 - w.2) (by omega) hrest
        obtain ⟨l', hl'⟩ := Option.isSome_iff_exists.mp hinner
        rw [findCombo]
        have hwfilter :
            w ∈ vocab.filter (fun w => decide (0 < w.2) && decide (w.2 ≤ t' + 1)) :=
          List.mem_filter.mpr ⟨hwv, by simp [hwpos, hwle]⟩
        exact foldr_orelse_isSome (List.mem_attach _ ⟨w, hwfilter⟩)
          (by rw [hl']; rfl)

theorem mapOpt_findCombo (vocab : List VocabWord)
    (hv : ∀ w ∈ vocab, 0 < w.2) :
    ∀ pattern : List Nat, (∀ s ∈ pattern, Satisfiable vocab s) →
      ∃ poem, mapOpt (findCombo vocab) pattern = some poem ∧
        poem.map lineSyllables = pattern := by
  intro pattern
  induction pattern with
  | nil => exact fun _ => ⟨[], rfl, rfl⟩
  | cons s ps ih =>
    intro hsat
    have h1 : (findCombo vocab s).isSome :=
      findCombo_complete vocab hv s (hsat s (List.mem_cons_self s ps))
    obtain ⟨l, hl⟩ := Option.isSome_iff_exists.mp h1
    obtain ⟨poem, hpoem, hsyll⟩ :=
      ih (fun x hx => hsat x (List.mem_cons.mpr (Or.inr hx)))
    refine ⟨l :: poem, ?_, ?_⟩
    · simp [mapOpt, hl, hpoem]
    · have hs := (findCombo_sound vocab s l hl).1
      simp [hsyll, hs]

theorem length_flatMap_replicate (n : Nat) (x : α) (f : α → List β) :
    ((List.replicate n x).flatMap f).length = n * (f x).length := by
  induction n with
  | zero => simp
  | succ k ih =>
    simp only [List.replicate_succ, List.flatMap_cons, List.length_append, ih]
    ring

/-! # Claims -/

/-- C1: for every tokenized text and element type (modelled: every token
list), the ranking produced by `rank_by_total_count` is pairwise sorted by
count descending, and entries with equal counts appear in first-appearance
order of the element: for every count value, the equal-count entries of
the ranking coincide with the corresponding sub-sequence of the
first-appearance entry list (stability of the sort over the original
tokenization order). -/
theorem C1_rank_by_total_count_sorted_stable [DecidableEq α]
    (tokens : List α) :
    (rank_by_total_count tokens).Pairwise (fun a b => b.2 ≤ a.2) ∧
    ∀ c : Nat,
      (rank_by_total_count tokens).filter (fun e => decide (e.2 = c)) =
        ((distinctInOrder tokens).map (fun v => (v, tokens.count v))).filter
          (fun e => decide (e.2 = c)) :=
  ⟨sortDescStable_pairwise _, fun c => filter_sortDescStable _ c⟩

/-- C2 counterexample: a ranked list holding one zero-count entry, with a
display count larger than the list, formats to an empty output — the
entry is not formatted, refuting "every entry is formatted" as stated. -/
theorem C2_counterexample :
    generate_ranked_list_output [(("a" : String), 0)] 2 = [] ∧
    ((([(("a" : String), 0)] : List (String × Nat)).length : Int) < 2) := by
  constructor
  · rfl
  · decide

/-- C2 (amended): for every ranked list and every display count N ≥ 0, the
formatted output has at most N lines; when the list has fewer than N
entries, every entry with nonzero count is formatted (truncation, not an
error); and every output line arises from an entry with nonzero count
(zero-count entries are suppressed). -/
theorem C2_generate_ranked_list_output_spec [ToString α]
    (rank_list : List (α × Nat)) (N : Int) (hN : 0 ≤ N) :
    (((generate_ranked_list_output rank_list N).length : Int) ≤ N) ∧
    ((rank_list.length : Int) < N →
      generate_ranked_list_output rank_list N =
        (rank_list.filter (fun e => decide (e.2 ≠ 0))).map
          (fun e => toString e.2 ++ ": " ++ toString e.1 ++ "\n")) ∧
    (∀ s ∈ generate_ranked_list_output rank_list N,
      ∃ e ∈ rank_list, e.2 ≠ 0 ∧
        s = toString e.2 ++ ": " ++ toString e.1 ++ "\n") := by
  refine ⟨?_, ?_, ?_⟩
  · have h1 : (generate_ranked_list_output rank_list N).length ≤
        (get_last_index_for_output rank_list N).toNat := by
      simp only [generate_ranked_list_output, List.length_map]
      exact le_trans (List.length_filter_le _ _) (List.length_take_le _ _)
    have h2 : ((get_last_index_for_output rank_list N).toNat : Int) ≤ N := by
      simp only [get_last_index_for_output]
      split <;> omega
    omega
  · intro hlt
    simp only [generate_ranked_list_output, get_last_index_for_output,
      if_pos hlt, Int.toNat_natCast, List.take_length]
  · intro s hs
    simp only [generate_ranked_list_output, List.mem_map] at hs
    obtain ⟨e, he, rfl⟩ := hs
    rw [List.mem_filter] at he
    refine ⟨e, List.take_subset _ _ he.1, ?_, rfl⟩
    simpa using he.2

/-- C2 witness: concrete instantiation at a two-entry list and display
count 5. -/
theorem C2_witness :
    (0 : Int) ≤ 5 ∧
    ((((generate_ranked_list_output [(("a" : String), 2), ("b", 0)] 5).length : Int) ≤ 5) ∧
    ((([(("a" : String), 2), ("b", 0)] : List (String × Nat)).length : Int) < 5 →
      generate_ranked_list_output [(("a" : String), 2), ("b", 0)] 5 =
        (([(("a" : String), 2), ("b", 0)] : List (String × Nat)).filter
          (fun e => decide (e.2 ≠ 0))).map
          (fun e => toString e.2 ++ ": " ++ toString e.1 ++ "\n")) ∧
    (∀ s ∈ generate_ranked_list_output [(("a" : String), 2), ("b", 0)] 5,
      ∃ e ∈ ([(("a" : String), 2), ("b", 0)] : List (String × Nat)), e.2 ≠ 0 ∧
        s = toString e.2 ++ ": " ++ toString e.1 ++ "\n")) :=
  ⟨by decide, C2_generate_ranked_list_output_spec [("a", 2), ("b", 0)] 5 (by decide)⟩

/-- C3 counterexample: the invalid type code "x" takes the `sys.exit(0)`
branch of `expand_type` — the process terminates instead of a typed
recoverable error being returned to the caller. -/
theorem C3_counterexample : expand_type "x" = .exitProcess := by decide

/-- C3 (amended): an invalid element-type code makes `expand_type` log an
error and terminate the process (`sys.exit(0)`) rather than return a typed
recoverable failure; the valid codes 'w', 'c', 's' resolve to words,
characters, and sentences respectively. -/
theorem C3_expand_type_spec (code : String)
    (hw : code ≠ "w") (hc : code ≠ "c") (hs : code ≠ "s") :
    expand_type code = .exitProcess ∧
    expand_type "w" = .ok "words" ∧
    expand_type "c" = .ok "characters" ∧
    expand_type "s" = .ok "sentences" := by
  refine ⟨?_, by decide, by decide, by decide⟩
  simp [expand_type, hw, hc, hs]

/-- C3 witness: concrete instantiation at the invalid code "x". -/
theorem C3_witness :
    ("x" : String) ≠ "w" ∧ ("x" : String) ≠ "c" ∧ ("x" : String) ≠ "s" ∧
    (expand_type "x" = .exitProcess ∧
     expand_type "w" = .ok "words" ∧
     expand_type "c" = .ok "characters" ∧
     expand_type "s" = .ok "sentences") :=
  ⟨by decide, by decide, by decide,
    C3_expand_type_spec "x" (by decide) (by decide) (by decide)⟩

/-- C4: code bug, evaluated at concrete inputs — the count command's
single output line is the raw integer returned by `count_occurences`, and
the readability command's single output line is the raw float score;
neither is a string, contradicting the contract that every engine output
line is a plain string (and `output_to_file`'s `writelines` requires
strings). -/
theorem C4_engine_output_lines_not_strings :
    get_count_output ["the", "cat", "the"] "the" = [OutputLine.int 2] ∧
    (∀ s : String, OutputLine.str s ≠ OutputLine.int 2) ∧
    get_Gunning_output 6 2 1 = some [OutputLine.float (118 / 15)] ∧
    (∀ s : String, OutputLine.str s ≠ OutputLine.float (118 / 15)) := by
  refine ⟨by decide, fun s => by simp, ?_, fun s => by simp⟩
  simp only [get_Gunning_output, calculate_Gunning_Fog_Index]
  norm_num

/-- C5: the Gunning-Fog computation with zero sentences or zero words
returns the guarded typed failure value, never performing the division. -/
theorem C5_gunning_guard (words sentences complexWords : Nat)
    (h : sentences = 0 ∨ words = 0) :
    calculate_Gunning_Fog_Index words sentences complexWords = none := by
  simp [calculate_Gunning_Fog_Index, h]

/-- C5 witness: a text with 5 words, 0 sentences, 2 complex words. -/
theorem C5_witness :
    ((0 : Nat) = 0 ∨ (5 : Nat) = 0) ∧
    calculate_Gunning_Fog_Index 5 0 2 = none :=
  ⟨Or.inl rfl, C5_gunning_guard 5 0 2 (Or.inl rfl)⟩

/-- C6: for every vocabulary whose words all carry a positive estimated
syllable count and every pattern each of whose targets is satisfiable by
that vocabulary, `generate_poems` returns exactly n poems, each with one
line per pattern entry whose estimated syllable count equals that entry
exactly; the formatted poem output then consists of one string per poem
line plus one blank separator line per poem, n * (len(pattern) + 1)
strings in total. -/
theorem C6_generate_poems_spec (vocab : List VocabWord) (pattern : List Nat)
    (n : Nat) (hv : ∀ w ∈ vocab, 0 < w.2)
    (hsat : ∀ s ∈ pattern, Satisfiable vocab s) :
    ∃ poems, generate_poems vocab pattern n = some poems ∧
      poems.length = n ∧
      (∀ poem ∈ poems, poem.length = pattern.length ∧
        poem.map lineSyllables = pattern) ∧
      ∃ out, get_poem_output vocab pattern n = some out ∧
        out.length = n * (pattern.length + 1) := by
  obtain ⟨poem, hpoem, hsyll⟩ := mapOpt_findCombo vocab hv pattern hsat
  have hplen : poem.length = pattern.length := by
    rw [← hsyll, List.length_map]
  refine ⟨List.replicate n poem, ?_, List.length_replicate n poem, ?_, ?_⟩
  · simp [generate_poems, hpoem]
  · intro p hp
    rw [List.eq_of_mem_replicate hp]
    exact ⟨hplen, hsyll⟩
  · have hout : get_poem_output vocab pattern n =
        some ((List.replicate n poem).flatMap
          (fun poem => poem.map (fun line => renderLine line ++ "\n") ++ ["\n"])) := by
      simp [get_poem_output, generate_poems, hpoem]
    refine ⟨_, hout, ?_⟩
    rw [length_flatMap_replicate]
    simp [hplen]

/-- C6 witness: vocabulary [("cat", 1)], pattern [1], one poem. -/
theorem C6_witness :
    (∀ w ∈ ([(("cat" : String), 1)] : List VocabWord), 0 < w.2) ∧
    (∀ s ∈ [1], Satisfiable [(("cat" : String), 1)] s) ∧
    (∃ poems, generate_poems [(("cat" : String), 1)] [1] 1 = some poems ∧
      poems.length = 1 ∧
      (∀ poem ∈ poems, poem.length = ([1] : List Nat).length ∧
        poem.map lineSyllables = [1]) ∧
      ∃ out, get_poem_output [(("cat" : String), 1)] [1] 1 = some out ∧
        out.length = 1 * (([1] : List Nat).length + 1)) :=
  ⟨by decide,
   fun s hs => by
     simp only [List.mem_singleton] at hs
     subst hs
     exact ⟨[("cat", 1)], by simp, by decide⟩,
   C6_generate_poems_spec [("cat", 1)] [1] 1 (by decide)
     (fun s hs => by
       simp only [List.mem_singleton] at hs
       subst hs
       exact ⟨[("cat", 1)], by simp, by decide⟩)⟩

/-- C7 counterexample: a `--syllables` argument of [0] reaches the
generator as the pattern [0], whose entry is not strictly positive. -/
theorem C7_counterexample :
    resolve_poem_pattern ⟨some [0], none, none⟩ = some [0] ∧
    ¬(0 < (0 : Int)) := by
  constructor
  · rfl
  · decide

/-- C7 (amended): preset-derived patterns have every entry strictly
positive, but the explicit per-line syllable list and the repeat shortcut
are handed to the generator without positivity validation — the list
unchanged and the shortcut as its plain repeat expansion — so
non-positive entries can reach the generator. -/
theorem C7_resolve_poem_pattern_spec :
    (∀ p pat, get_syllable_pattern p = some pat → ∀ x ∈ pat, 0 < x) ∧
    (∀ l : List Int, l ≠ [] →
      resolve_poem_pattern ⟨some l, none, none⟩ = some l) ∧
    (∀ s k : Int, resolve_poem_pattern ⟨none, none, some (s, k)⟩ =
      some (get_repeat_syllable_pattern s k)) := by
  refine ⟨?_, ?_, fun s k => rfl⟩
  · intro p pat hp x hx
    simp only [get_syllable_pattern] at hp
    split at hp
    · cases hp
      have := List.eq_of_mem_replicate hx
      omega
    · split at hp
      · cases hp
        fin_cases hx <;> decide
      · cases hp
  · intro l hl
    simp only [resolve_poem_pattern, truthyList]
    rw [if_pos (by simpa using hl)]

/-- C7 witness: the preset 'h' gives a positive pattern; the explicit
list [0, 0] passes through unchanged. -/
theorem C7_witness :
    get_syllable_pattern "h" = some [7, 5, 7] ∧
    (∀ x ∈ ([7, 5, 7] : List Int), 0 < x) ∧
    (([0, 0] : List Int) ≠ []) ∧
    resolve_poem_pattern ⟨some [0, 0], none, none⟩ = some [0, 0] :=
  ⟨by decide,
   C7_resolve_poem_pattern_spec.1 "h" [7, 5, 7] (by decide),
   by decide,
   C7_resolve_poem_pattern_spec.2.1 [0, 0] (by decide)⟩

/-- C8 counterexample: at repeat count -1, `get_repeat_syllable_pattern`
returns the empty list (Python's `range(0, -1)` is empty), whose length 0
is not -1, refuting "length exactly k for every pair (s, k)". -/
theorem C8_counterexample :
    get_repeat_syllable_pattern 10 (-1) = [] ∧
    (((get_repeat_syllable_pattern 10 (-1)).length : Int) ≠ -1) := by
  constructor
  · rfl
  · decide

/-- C8 (amended): for every syllable count s and every nonnegative repeat
count k, the fixed-repeat construction returns a list of length exactly k
in which every entry equals s (for a negative k the Python range is empty);
the preset 's' resolves to the 14-entry pattern of all 10s and the preset
'h' to the fixed three-entry pattern [7, 5, 7]. -/
theorem C8_syllable_pattern_presets (s k : Int) (hk : 0 ≤ k) :
    ((get_repeat_syllable_pattern s k).length : Int) = k ∧
    (∀ x ∈ get_repeat_syllable_pattern s k, x = s) ∧
    get_syllable_pattern "s" = some (List.replicate 14 10) ∧
    get_syllable_pattern "h" = some [7, 5, 7] := by
  refine ⟨?_, ?_, by decide, by decide⟩
  · simp only [get_repeat_syllable_pattern, List.length_replicate]
    omega
  · intro x hx
    exact List.eq_of_mem_replicate hx

/-- C8 witness: concrete instantiation at the Shakespeare-sonnet shape
(10 syllables, 14 lines). -/
theorem C8_witness :
    (0 : Int) ≤ 14 ∧
    (((get_repeat_syllable_pattern 10 14).length : Int) = 14 ∧
     (∀ x ∈ get_repeat_syllable_pattern 10 14, x = 10) ∧
     get_syllable_pattern "s" = some (List.replicate 14 10) ∧
     get_syllable_pattern "h" = some [7, 5, 7]) :=
  ⟨by decide, C8_syllable_pattern_presets 10 14 (by decide)⟩

/-- C9: the pattern list handed to `rank_by_number_of_matches` by the
match command is the split of the patterns argument on '~' when '~'
occurs in it, and the one-element list holding the whole argument
otherwise; in both cases it is passed on unchanged. -/
theorem C9_get_match_output_split (tokens : List (List Char))
    (s : List Char) (n : Int) :
    ('~' ∈ s → get_match_output tokens s n =
      generate_ranked_list_output
        (rank_by_number_of_matches (pySplit '~' s) tokens) n) ∧
    ('~' ∉ s → get_match_output tokens s n =
      generate_ranked_list_output
        (rank_by_number_of_matches [s] tokens) n) := by
  constructor
  · intro h
    simp [get_match_output, h]
  · intro h
    simp [get_match_output, h]

/-- C9 witness: the argument "a~b" (as characters) contains '~' and is
split. -/
theorem C9_witness :
    '~' ∈ ['a', '~', 'b'] ∧
    get_match_output [['a']] ['a', '~', 'b'] 3 =
      generate_ranked_list_output
        (rank_by_number_of_matches (pySplit '~' ['a', '~', 'b']) [['a']]) 3 :=
  ⟨by decide, (C9_get_match_output_split [['a']] ['a', '~', 'b'] 3).1 (by decide)⟩

/-- C10: for a filename with exactly one '.' (decomposed as the dot-free
part before and after it), `get_filenames` returns the input unchanged
together with the derived output name (stem, "_out", '.', extension); for
any filename whose number of dots is not one, the two-element
destructuring of the split fails (Python raises), modelled `none`. -/
theorem C10_get_filenames_spec (l : List Char) :
    (∀ pre post, l = pre ++ '.' :: post → '.' ∉ pre → '.' ∉ post →
      get_filenames l =
        some (l, pre ++ "_out".toList ++ ".".toList ++ post)) ∧
    (l.count '.' ≠ 1 → get_filenames l = none) := by
  constructor
  · intro pre post hdecomp hpre hpost
    subst hdecomp
    simp only [get_filenames, pySplit_append_sep '.' pre post hpre hpost]
  · intro hcount
    have hlen : (pySplit '.' l).length ≠ 2 := by
      rw [length_pySplit]
      omega
    simp only [get_filenames]
    cases h : pySplit '.' l with
    | nil => rfl
    | cons a as =>
      cases as with
      | nil => rfl
      | cons b bs =>
        cases bs with
        | nil =>
          rw [h] at hlen
          simp at hlen
        | cons c cs => rfl

/-- C10 witness: the filename "a.txt". -/
theorem C10_witness :
    ("a.txt".toList = ['a'] ++ '.' :: "txt".toList) ∧
    ('.' ∉ ['a']) ∧ ('.' ∉ "txt".toList) ∧
    get_filenames "a.txt".toList =
      some ("a.txt".toList, ['a'] ++ "_out".toList ++ ".".toList ++ "txt".toList) :=
  ⟨by decide, by decide, by decide,
    (C10_get_filenames_spec "a.txt".toList).1 ['a'] "txt".toList
      (by decide) (by decide) (by decide)⟩

end Writerator
